import Mathlib

/-!
# Verification of the firmware-upgrader control plane

A shallow embedding, in Lean 4, of the parts of the firmware-upgrader
repository (Go) that the verified claims are about: the data model
(`internal/models`), the persistence operations over jobs and modems
(`internal/database`), the rule matcher (`internal/engine`, matcher),
the engine's rule evaluation, pending-job sweep and failure handling
(`internal/engine`, engine), and the SNMP upgrade-trigger sequence
(`internal/snmp/client.go`).

Conventions of the embedding:
* Go strings are `String`, Go `int` identity/count fields are `Nat`
  (they are non-negative in every reachable use), and rule priority is
  `Int` (it may be authored negative).
* `float64` signal levels are embedded as `ℚ`: the program only ever
  compares them against the one-decimal constants `-15.0`/`15.0`, and
  values of that granularity compare identically in binary floating
  point and in `ℚ`.
* Unix timestamps are `Nat` (seconds since epoch).
* Fallible Go functions returning `(T, error)` become `Except String T`.
* SQLite queries become pure list transformations over an
  insertion-ordered table; `ORDER BY ... DESC` is a stable sort
  (SQLite returns tied rows in rowid order, i.e. insertion order).
* The Go `regexp` library is embedded as a small regular-expression
  AST with derivative-based matching and a compiler for the fragment
  of the syntax the rules in question use (literal characters, `.`,
  postfix `*`); patterns using any other Go metacharacter are rejected
  by the embedded compiler, so the embedding asserts nothing about
  them; `MatchString` is unanchored search, as in Go.
-/

set_option maxRecDepth 4000

namespace FirmwareUpgrader

/-! ## Constants from `internal/models` -/

def JobStatusPending : String := "PENDING"
def JobStatusInProgress : String := "IN_PROGRESS"
def JobStatusCompleted : String := "COMPLETED"
def JobStatusFailed : String := "FAILED"
def JobStatusSkipped : String := "SKIPPED"

def EventUpgradeStarted : String := "UPGRADE_STARTED"
def EventUpgradeCompleted : String := "UPGRADE_COMPLETED"
def EventUpgradeFailed : String := "UPGRADE_FAILED"

/-! ## Data model (`internal/models`) -/

/-- `models.CableModem`. -/
structure CableModem where
  id : Nat
  cmtsID : Nat
  macAddress : String
  ipAddress : String
  sysDescr : String
  currentFirmware : String
  signalLevel : ℚ
  status : String
  lastSeen : Nat
deriving Repr, DecidableEq

/-- `models.MatchCriteria` (the structured form of the rule's
`match_criteria` JSON blob; the JSON (de)serialization layer is external
to the embedded core, so rules here carry the parsed structure). -/
structure MatchCriteria where
  startMAC : String
  endMAC : String
  pattern : String
deriving Repr, DecidableEq

/-- `models.UpgradeRule`. -/
structure UpgradeRule where
  id : Nat
  name : String
  matchType : String
  matchCriteria : MatchCriteria
  tftpServerIP : String
  firmwareFilename : String
  enabled : Bool
  priority : Int
deriving Repr, DecidableEq

/-- `models.UpgradeJob`. -/
structure UpgradeJob where
  id : Nat
  modemID : Nat
  ruleID : Nat
  cmtsID : Nat
  macAddress : String
  status : String
  tftpServerIP : String
  firmwareFilename : String
  retryCount : Nat
  maxRetries : Nat
  errorMessage : Option String
  createdAt : Nat
  startedAt : Option Nat
  completedAt : Option Nat
deriving Repr, DecidableEq

/-- `models.ActivityLog`. -/
structure ActivityLog where
  eventType : String
  entityType : String
  entityID : Nat
  message : String
  createdAt : Nat
deriving Repr, DecidableEq

/-! ## Regular expressions (embedding of the used fragment of Go `regexp`)

`matchSysDescrRegex` and `extractFirmwareVersion` call into Go's
`regexp` package.  We embed a regular-expression AST with
Brzozowski-derivative matching.  `searchMatch` is unanchored, like
Go's `MatchString`: it reports whether any substring matches. -/

inductive Regex where
  | fail : Regex
  | eps : Regex
  | lit : Char → Regex
  | anyChar : Regex
  | alt : Regex → Regex → Regex
  | cat : Regex → Regex → Regex
  | star : Regex → Regex
deriving Repr, DecidableEq

/-- Whether the regex accepts the empty string. -/
def Regex.nullable : Regex → Bool
  | .fail => false
  | .eps => true
  | .lit _ => false
  | .anyChar => false
  | .alt a b => a.nullable || b.nullable
  | .cat a b => a.nullable && b.nullable
  | .star _ => true

/-- Brzozowski derivative with respect to one character. -/
def Regex.deriv : Regex → Char → Regex
  | .fail, _ => .fail
  | .eps, _ => .fail
  | .lit c, a => if a = c then .eps else .fail
  | .anyChar, _ => .eps
  | .alt r s, a => .alt (r.deriv a) (s.deriv a)
  | .cat r s, a =>
      if r.nullable then .alt (.cat (r.deriv a) s) (s.deriv a)
      else .cat (r.deriv a) s
  | .star r, a => .cat (r.deriv a) (.star r)

/-- Does the regex match some prefix of `cs` (a match starting here)? -/
def Regex.matchesHere : Regex → List Char → Bool
  | r, [] => r.nullable
  | r, c :: cs => r.nullable || (r.deriv c).matchesHere cs

/-- Unanchored matching: does the regex match some substring? This is
the semantics of Go's `Regexp.MatchString`. -/
def Regex.searchMatch : Regex → List Char → Bool
  | r, [] => r.nullable
  | r, c :: cs => r.matchesHere (c :: cs) || r.searchMatch cs

/-- One atom of the compiled pattern: `.` is any-char, everything else
in the supported fragment is a literal. -/
def regexAtom (c : Char) : Regex :=
  if c = '.' then Regex.anyChar else Regex.lit c

/-- Go regex metacharacters that the embedded compiler does NOT
implement.  Patterns containing any of them are rejected by
`compileRegex` (returns `none`), so every pattern the embedded
compiler accepts has exactly Go's semantics; on the rejected patterns
the embedding makes no assertion. -/
def regexMeta (c : Char) : Bool :=
  c = '\\' || c = '^' || c = '$' || c = '|' || c = '?' || c = '+' ||
  c = '(' || c = ')' || c = '[' || c = ']' || c = '\x7b' || c = '\x7d'

/-- Compiler for the fragment of Go regex syntax exercised by the
claims: a sequence of atoms (a literal character or `.`), each
optionally followed by `*`.  A leading `*` is a syntax error, as in Go
(`missing argument to repetition operator`); any unimplemented
metacharacter (`regexMeta`) makes compilation fail, keeping the
compiled fragment faithful to Go. -/
def parseRegexChars : List Char → Option Regex
  | [] => some .eps
  | '*' :: _ => none
  | c :: '*' :: rest =>
      if regexMeta c then none
      else (parseRegexChars rest).map (fun r => .cat (.star (regexAtom c)) r)
  | c :: rest =>
      if regexMeta c then none
      else (parseRegexChars rest).map (fun r => .cat (regexAtom c) r)

/-- `regexp.Compile` for the supported fragment. -/
def compileRegex (pattern : String) : Option Regex :=
  parseRegexChars pattern.data

/-! ## Rule matcher (`internal/engine`, matcher) -/

/-- Uppercase-hex digit test, applied after `strings.ToUpper`. -/
def isHexUpper (c : Char) : Bool :=
  c.isDigit || ('A' ≤ c && c ≤ 'F')

def hexVal (c : Char) : Nat :=
  if c.isDigit then c.toNat - '0'.toNat else c.toNat - 'A'.toNat + 10

def parseHexByte : List Char → Option Nat
  | [a, b] =>
      if isHexUpper a && isHexUpper b then some (16 * hexVal a + hexVal b)
      else none
  | _ => none

/-- The normalization performed by `parseMAC` before calling
`net.ParseMAC`: uppercase, rewrite Cisco dot-triplet notation,
replace hyphens/dots with colons, and insert colons into a bare
12-hex-digit string. -/
def normalizeMAC (mac : String) : String :=
  let up := mac.toUpper
  let dotted := up.splitOn "."
  let up :=
    if dotted.length = 3 ∧ (dotted.all (fun p => p.length = 4)) then
      match dotted with
      | [p0, p1, p2] =>
          let g (p : String) : String :=
            String.mk (p.data.take 2) ++ ":" ++ String.mk (p.data.drop 2)
          g p0 ++ ":" ++ g p1 ++ ":" ++ g p2
      | _ => up
    else
      (up.replace "-" ":").replace "." ":"
  if (!up.contains ':') && up.length = 12 then
    let cs := up.data
    String.mk (cs.take 2) ++ ":" ++ String.mk ((cs.drop 2).take 2) ++ ":" ++
      String.mk ((cs.drop 4).take 2) ++ ":" ++ String.mk ((cs.drop 6).take 2) ++ ":" ++
      String.mk ((cs.drop 8).take 2) ++ ":" ++ String.mk ((cs.drop 10).take 2)
  else up

/-- `parseMAC`: normalize, then parse the colon-separated 6-byte form
(the form `net.ParseMAC` receives from every input shape the
normalizer handles). -/
def parseMAC (mac : String) : Option (List Nat) :=
  let groups := (normalizeMAC mac).splitOn ":"
  if groups.length = 6 then
    groups.mapM (fun g => parseHexByte g.data)
  else none

/-- `macToUint64`. -/
def macToUint64 (bytes : List Nat) : Nat :=
  if bytes.length ≠ 6 then 0
  else bytes.foldl (fun acc b => acc * 256 + b) 0

/-- `Matcher.matchMACRange`. -/
def matchMACRange (mac : String) (criteria : MatchCriteria) : Except String Bool :=
  if criteria.startMAC = "" ∨ criteria.endMAC = "" then
    .error "MAC range criteria missing start_mac or end_mac"
  else
    match parseMAC mac with
    | none => .error "invalid modem MAC"
    | some modemMAC =>
      match parseMAC criteria.startMAC with
      | none => .error "invalid start MAC"
      | some startMAC =>
        match parseMAC criteria.endMAC with
        | none => .error "invalid end MAC"
        | some endMAC =>
          let modemInt := macToUint64 modemMAC
          let startInt := macToUint64 startMAC
          let endInt := macToUint64 endMAC
          .ok (startInt ≤ modemInt && modemInt ≤ endInt)

/-- `Matcher.matchSysDescrRegex`. -/
def matchSysDescrRegex (sysDescr : String) (criteria : MatchCriteria) : Except String Bool :=
  if criteria.pattern = "" then .error "regex pattern is empty"
  else
    match compileRegex criteria.pattern with
    | none => .error "invalid regex pattern"
    | some re => .ok (re.searchMatch sysDescr.data)

/-- `Matcher.matchRule`. -/
def matchRule (modem : CableModem) (rule : UpgradeRule) : Except String Bool :=
  match rule.matchType with
  | "MAC_RANGE" => matchMACRange modem.macAddress rule.matchCriteria
  | "SYSDESCR_REGEX" => matchSysDescrRegex modem.sysDescr rule.matchCriteria
  | _ => .error ("unknown match type: " ++ rule.matchType)

/-- `Matcher.MatchModemToRules`: first enabled rule that matches;
rules that error during evaluation are logged and skipped. -/
def MatchModemToRules (modem : CableModem) : List UpgradeRule → Option UpgradeRule
  | [] => none
  | rule :: rest =>
      if !rule.enabled then MatchModemToRules modem rest
      else
        match matchRule modem rule with
        | .error _ => MatchModemToRules modem rest
        | .ok true => some rule
        | .ok false => MatchModemToRules modem rest

/-! ### Firmware version extraction

`extractFirmwareVersion` applies the Go regex
`v?(\d+\.\d+\.\d+(?:\.\d+)*)` and returns capture group 1 of the
leftmost match, or `""` when there is no match.  We embed the regex
directly as a scanner: at each position, optionally consume `v`, then
require three dot-separated digit runs and greedily consume further
`.digits` groups.  (Greedy matching needs no backtracking for this
pattern: shortening a digit run can never turn a failing `\.` into a
success.) -/

/-- Greedily consume `(\.\d+)*`, returning the consumed characters.
Fuel-driven; fuel `cs.length` always suffices since every step
consumes at least two characters. -/
def dotNumTailFuel : Nat → List Char → List Char
  | 0, _ => []
  | fuel + 1, cs =>
      match cs with
      | '.' :: rest =>
          match rest.span Char.isDigit with
          | ([], _) => []
          | (d :: ds, rest2) => '.' :: (d :: ds) ++ dotNumTailFuel fuel rest2
      | _ => []

def dotNumTail (cs : List Char) : List Char :=
  dotNumTailFuel cs.length cs

/-- Try to match `v?(\d+\.\d+\.\d+(?:\.\d+)*)` anchored at the start
of `cs`; return the text of capture group 1. -/
def matchVersionAt (cs : List Char) : Option (List Char) :=
  let cs1 := match cs with
             | 'v' :: rest => rest
             | _ => cs
  match cs1.span Char.isDigit with
  | ([], _) => none
  | (d1, rest1) =>
    match rest1 with
    | '.' :: rest2 =>
      match rest2.span Char.isDigit with
      | ([], _) => none
      | (d2, rest3) =>
        match rest3 with
        | '.' :: rest4 =>
          match rest4.span Char.isDigit with
          | ([], _) => none
          | (d3, rest5) =>
              some (d1 ++ '.' :: d2 ++ '.' :: d3 ++ dotNumTail rest5)
        | _ => none
    | _ => none

/-- Leftmost match: scan start positions left to right. -/
def scanVersion : List Char → Option (List Char)
  | [] => none
  | c :: rest =>
      match matchVersionAt (c :: rest) with
      | some v => some v
      | none => scanVersion rest

/-- `extractFirmwareVersion`. -/
def extractFirmwareVersion (filename : String) : String :=
  match scanVersion filename.data with
  | some v => String.mk v
  | none => ""

/-- `Matcher.ShouldUpgrade`. -/
def ShouldUpgrade (modem : CableModem) (rule : UpgradeRule) : Bool :=
  if modem.currentFirmware = "" then true
  else
    let targetFirmware := extractFirmwareVersion rule.firmwareFilename
    if targetFirmware = "" then true
    else if modem.currentFirmware = targetFirmware then false
    else true

/-- The eligibility test of `Matcher.FilterEligibleModems`: online, and
signal level not outside `[-15.0, 15.0]`. -/
def eligibleModem (m : CableModem) : Bool :=
  if m.status ≠ "online" then false
  else if m.signalLevel < -15 ∨ m.signalLevel > 15 then false
  else true

/-- `Matcher.FilterEligibleModems`. -/
def FilterEligibleModems (modems : List CableModem) : List CableModem :=
  modems.filter eligibleModem

/-! ## Persistence layer (`internal/database`)

The SQLite store is embedded as insertion-ordered tables.  `ORDER BY k
DESC` becomes a stable insertion sort on the key: SQLite returns rows
with equal keys in rowid (= insertion) order, which is exactly what a
stable sort of the insertion-ordered table yields. -/

/-- Stable insertion step for a descending sort: `x` (earlier in the
original list) goes before `y` whenever its key is `≥`. -/
def insertByKeyDesc (k : α → Nat) (x : α) : List α → List α
  | [] => [x]
  | y :: ys => if k y ≤ k x then x :: y :: ys else y :: insertByKeyDesc k x ys

/-- Stable sort, descending by `k`. -/
def sortByKeyDesc (k : α → Nat) (l : List α) : List α :=
  l.foldr (insertByKeyDesc k) []

/-- The store: the job, modem and rule tables plus the append-only
activity log, with the monotone job rowid counter. -/
structure Store where
  modems : List CableModem
  rules : List UpgradeRule
  jobs : List UpgradeJob
  activity : List ActivityLog
  nextJobID : Nat
deriving Repr, DecidableEq

/-- `DB.ListJobs`: optional status filter, `ORDER BY created_at DESC`,
`LIMIT limit` when `limit > 0`. -/
def ListJobs (s : Store) (status : String) (limit : Nat) : List UpgradeJob :=
  let rows := if status = "" then s.jobs
              else s.jobs.filter (fun j => j.status == status)
  let sorted := sortByKeyDesc (fun j => j.createdAt) rows
  if limit > 0 then sorted.take limit else sorted

/-- `DB.ListModems`: optional CMTS filter (`0` = all),
`ORDER BY last_seen DESC`. -/
def ListModems (s : Store) (cmtsID : Nat) : List CableModem :=
  let rows := if cmtsID > 0 then s.modems.filter (fun m => m.cmtsID == cmtsID)
              else s.modems
  sortByKeyDesc (fun m => m.lastSeen) rows

/-- Placement test for `ORDER BY priority DESC, name` (stable on full
ties). -/
def rulePlacesBefore (a b : UpgradeRule) : Bool :=
  b.priority < a.priority || (a.priority == b.priority && !(b.name < a.name))

def insertRuleOrdered (x : UpgradeRule) : List UpgradeRule → List UpgradeRule
  | [] => [x]
  | y :: ys => if rulePlacesBefore x y then x :: y :: ys else y :: insertRuleOrdered x ys

/-- `DB.ListRules`: `ORDER BY priority DESC, name`. -/
def ListRules (s : Store) : List UpgradeRule :=
  s.rules.foldr insertRuleOrdered []

/-- `DB.CreateJob`: INSERT stamping `created_at = now`; the columns
`error_message`, `started_at`, `completed_at` are not in the INSERT and
are NULL on the fresh row. -/
def CreateJob (s : Store) (job : UpgradeJob) (now : Nat) : Store × Nat :=
  let id := s.nextJobID
  let row := { job with
    id := id
    createdAt := now
    errorMessage := none
    startedAt := none
    completedAt := none }
  ({ s with jobs := s.jobs ++ [row], nextJobID := id + 1 }, id)

/-- The UPDATE of `DB.UpdateJob`: only `status`, `retry_count`,
`error_message`, `started_at`, `completed_at` are in the SET list. -/
def applyJobUpdate (j row : UpgradeJob) : UpgradeJob :=
  { row with
    status := j.status
    retryCount := j.retryCount
    errorMessage := j.errorMessage
    startedAt := j.startedAt
    completedAt := j.completedAt }

/-- `DB.UpdateJob`: `models.ErrNotFound` when no row matches the id. -/
def UpdateJob (s : Store) (j : UpgradeJob) : Except String Store :=
  if s.jobs.any (fun row => row.id == j.id) then
    .ok { s with jobs := s.jobs.map (fun row =>
            if row.id == j.id then applyJobUpdate j row else row) }
  else .error "not found"

/-- `DB.LogActivity` (append-only). -/
def LogActivity (s : Store) (e : ActivityLog) : Store :=
  { s with activity := s.activity ++ [e] }

/-! ## Engine (`internal/engine`) -/

/-- `engine.Config`. -/
structure Config where
  workers : Nat
  retryAttempts : Nat
  pollIntervalSec : Nat
  jobTimeoutSec : Nat
  maxPerCMTS : Nat
deriving Repr, DecidableEq

/-- Everything `handleJobFailure` produces: the updated job row, the
computed backoff (retry case), the `UPGRADE_FAILED` activity event,
and whether the failure was terminal. -/
structure FailureOutcome where
  job : UpgradeJob
  backoffSeconds : Option Nat
  activity : ActivityLog
  terminal : Bool
deriving Repr, DecidableEq

/-- `Engine.handleJobFailure`.  The backoff is Go's
`30 * (1 << (retryCount-1))` capped at 300; for every retry count this
program can produce (`max_retries` is stamped 3 at job creation and
the API retry resets the count to 0) the Go `int` shift never
overflows, so exact arithmetic is faithful. -/
def handleJobFailure (job : UpgradeJob) (errMsg : String) (now : Nat) : FailureOutcome :=
  let j1 := { job with errorMessage := some errMsg, retryCount := job.retryCount + 1 }
  if j1.retryCount < j1.maxRetries then
    let raw := 30 * 2 ^ (j1.retryCount - 1)
    let backoff := if raw > 300 then 300 else raw
    let j2 := { j1 with status := JobStatusPending, startedAt := none }
    { job := j2
      backoffSeconds := some backoff
      activity :=
        { eventType := EventUpgradeFailed, entityType := "job", entityID := job.id
          message := "Upgrade failed for modem " ++ job.macAddress ++ ", will retry in "
            ++ toString backoff ++ "s (attempt " ++ toString j1.retryCount ++ "/"
            ++ toString j1.maxRetries ++ "): " ++ errMsg
          createdAt := now }
      terminal := false }
  else
    let j2 := { j1 with status := JobStatusFailed, completedAt := some now }
    { job := j2
      backoffSeconds := none
      activity :=
        { eventType := EventUpgradeFailed, entityType := "job", entityID := job.id
          message := "Upgrade permanently failed for modem " ++ job.macAddress
            ++ " after " ++ toString j1.retryCount ++ " attempts: " ++ errMsg
          createdAt := now }
      terminal := true }

/-- The enqueue loop of `Engine.checkPendingJobs`: skip jobs whose MAC
is in the in-progress set; push the rest onto the channel; when the
channel is full (`default` branch) the whole sweep stops. -/
def sweepQueue (macs : List String) : Nat → List UpgradeJob → List UpgradeJob
  | _, [] => []
  | free, j :: rest =>
      if macs.contains j.macAddress then sweepQueue macs free rest
      else
        match free with
        | 0 => []
        | f + 1 => j :: sweepQueue macs f rest

/-- `Engine.checkPendingJobs`: list up to 100 PENDING and up to 100
IN_PROGRESS jobs, build the in-progress MAC set, and enqueue.  Returns
the jobs dispatched onto the worker channel this tick, in order. -/
def checkPendingJobs (s : Store) (chanFree : Nat) : List UpgradeJob :=
  let pending := ListJobs s JobStatusPending 100
  let inProgress := ListJobs s JobStatusInProgress 100
  let macs := inProgress.map (fun j => j.macAddress)
  sweepQueue macs chanFree pending

/-- The per-modem body of `Engine.EvaluateRules`: match, check
`ShouldUpgrade`, re-list up to 1000 PENDING and 1000 IN_PROGRESS jobs
for deduplication by MAC, and create the job (snapshotting the rule's
TFTP server and firmware filename, `max_retries` 3). -/
def evalModemStep (rules : List UpgradeRule) (now : Nat) (s : Store)
    (modem : CableModem) : Store × Bool :=
  match MatchModemToRules modem rules with
  | none => (s, false)
  | some rule =>
    if !ShouldUpgrade modem rule then (s, false)
    else
      let existingPending := ListJobs s JobStatusPending 1000
      let existingInProgress := ListJobs s JobStatusInProgress 1000
      let existing := existingPending ++ existingInProgress
      if existing.any (fun j => j.macAddress == modem.macAddress) then (s, false)
      else
        let job : UpgradeJob :=
          { id := 0, modemID := modem.id, ruleID := rule.id, cmtsID := modem.cmtsID
            macAddress := modem.macAddress, status := JobStatusPending
            tftpServerIP := rule.tftpServerIP, firmwareFilename := rule.firmwareFilename
            retryCount := 0, maxRetries := 3
            errorMessage := none, createdAt := 0, startedAt := none, completedAt := none }
        ((CreateJob s job now).1, true)

/-- Result of one `EvaluateRules` pass. -/
structure EvalResult where
  store : Store
  jobsCreated : Nat
deriving Repr, DecidableEq

/-- One iteration of the modem loop in `EvaluateRules`, threading the
store and the `jobsCreated` counter. -/
def evalFoldStep (rules : List UpgradeRule) (now : Nat) (acc : EvalResult)
    (m : CableModem) : EvalResult :=
  let step := evalModemStep rules now acc.store m
  { store := step.1
    jobsCreated := acc.jobsCreated + (if step.2 then 1 else 0) }

/-- `Engine.EvaluateRules`: enabled rules in priority order, eligible
modems, then the per-modem step.  `now` is the single wall-clock
second during which the pass runs (all rows INSERTed by one pass carry
it as `created_at`). -/
def EvaluateRules (s : Store) (now : Nat) : EvalResult :=
  let rules := (ListRules s).filter (fun r => r.enabled)
  if rules.isEmpty then { store := s, jobsCreated := 0 }
  else
    let allModems := ListModems s 0
    let modems := FilterEligibleModems allModems
    modems.foldl (evalFoldStep rules now) { store := s, jobsCreated := 0 }

/-! ## SNMP adapter (`internal/snmp/client.go`) -/

def OIDSysDescr : String := "1.3.6.1.2.1.1.1.0"
def OIDDocsDevSwServer : String := "1.3.6.1.2.1.69.1.1.3.0"
def OIDDocsDevSwFilename : String := "1.3.6.1.2.1.69.1.1.4.0"
def OIDDocsDevSwAdminStatus : String := "1.3.6.1.2.1.69.1.1.5.0"

/-- The wire-level operations `TriggerFirmwareUpgrade` performs, in
the order the code can issue them. -/
inductive SnmpOp where
  | getSysDescr : SnmpOp
  | setServer : SnmpOp
  | setFilename : SnmpOp
  | setAdminStatus : SnmpOp
deriving Repr, DecidableEq

/-- The device/network side of one `TriggerFirmwareUpgrade` call: the
outcome of the liveness GET (`error`, or `ok n` = a response carrying
`n` variable bindings) and the outcome of each SET, keyed by OID. -/
structure SnmpDevice where
  sysDescrGet : Except String Nat
  setOutcome : String → Except String Unit

/-- `Client.TriggerFirmwareUpgrade`: liveness GET of sysDescr first
(failing fast on transport error or an empty response), then the three
SETs in the order TFTP server, firmware filename, admin-status; any
failure aborts the sequence.  Returns the call's result together with
the trace of wire operations actually issued. -/
def TriggerFirmwareUpgrade (dev : SnmpDevice) (modemIP tftpServer filename : String) :
    Except String Unit × List SnmpOp :=
  match dev.sysDescrGet with
  | .error e =>
      (.error ("failed to verify modem connectivity at " ++ modemIP ++ ": " ++ e),
       [.getSysDescr])
  | .ok nVars =>
    if nVars = 0 then
      (.error ("modem at " ++ modemIP ++ " not responding to SNMP queries"),
       [.getSysDescr])
    else
      match dev.setOutcome OIDDocsDevSwServer with
      | .error e =>
          (.error ("failed to set TFTP server " ++ tftpServer ++ " on modem "
             ++ modemIP ++ ": " ++ e),
           [.getSysDescr, .setServer])
      | .ok _ =>
        match dev.setOutcome OIDDocsDevSwFilename with
        | .error e =>
            (.error ("failed to set firmware filename " ++ filename ++ " on modem "
               ++ modemIP ++ ": " ++ e),
             [.getSysDescr, .setServer, .setFilename])
        | .ok _ =>
          match dev.setOutcome OIDDocsDevSwAdminStatus with
          | .error e =>
              (.error ("failed to trigger upgrade on modem " ++ modemIP ++ ": " ++ e),
               [.getSysDescr, .setServer, .setFilename, .setAdminStatus])
          | .ok _ =>
              (.ok (), [.getSysDescr, .setServer, .setFilename, .setAdminStatus])

/-! ## Worker pool and per-CMTS semaphore (`internal/engine`, engine)

`processJob` first persists `status = IN_PROGRESS` (with
`started_at`), and only then `executeUpgrade` acquires the per-CMTS
semaphore permit before the SNMP work.  The permit is released on
every exit path, after which the worker writes the terminal status
(COMPLETED, or `handleJobFailure`'s PENDING/FAILED).  We model each
worker's position in that code path and the interleaving of workers as
a small-step transition system over the store. -/

/-- Where a worker is inside `processJob`/`executeUpgrade` (identified
by the id of the job it is driving). -/
inductive WorkerPhase where
  /-- In the `for`/`select` loop, no job in hand. -/
  | idle : WorkerPhase
  /-- Received a job from the channel; `processJob` not yet persisted. -/
  | fetched (jobID : Nat) : WorkerPhase
  /-- `UpdateJob` to IN_PROGRESS done; before `sem.Acquire()`. -/
  | marked (jobID : Nat) : WorkerPhase
  /-- Holding the per-CMTS permit; inside the SNMP upgrade. -/
  | holding (jobID : Nat) : WorkerPhase
deriving Repr, DecidableEq

/-- Engine state: the durable store plus each worker's phase. -/
structure EngineState where
  store : Store
  workers : List WorkerPhase
deriving Repr, DecidableEq

/-- Set job `jobID`'s status (and timestamps) in the jobs table, as
`UpdateJob` does for the status transition writes of the worker. -/
def setJobStatus (s : Store) (jobID : Nat) (status : String)
    (startedAt completedAt : Option Nat) : Store :=
  { s with jobs := s.jobs.map (fun row =>
      if row.id == jobID then
        { row with status := status, startedAt := startedAt, completedAt := completedAt }
      else row) }

def jobStatusOf (s : Store) (jobID : Nat) : Option String :=
  (s.jobs.find? (fun row => row.id == jobID)).map (fun j => j.status)

def jobCmtsOf (s : Store) (jobID : Nat) : Option Nat :=
  (s.jobs.find? (fun row => row.id == jobID)).map (fun j => j.cmtsID)

/-- Does worker phase `w` hold a permit of CMTS `c`'s semaphore, with
the job table of store `s` resolving the job's CMTS? -/
def holdsPermit (s : Store) (c : Nat) (w : WorkerPhase) : Bool :=
  match w with
  | .holding j => jobCmtsOf s j == some c
  | _ => false

/-- How many workers currently hold a permit of CMTS `c`'s semaphore. -/
def permitsHeld (st : EngineState) (c : Nat) : Nat :=
  (st.workers.filter (holdsPermit st.store c)).length

/-- How many jobs of CMTS `c` are in status IN_PROGRESS. -/
def inProgressCount (s : Store) (c : Nat) : Nat :=
  (s.jobs.filter (fun j => j.cmtsID == c && j.status == JobStatusInProgress)).length

/-- Small-step transitions of the worker pool, for a fixed config. -/
inductive EngineStep (cfg : Config) : EngineState → EngineState → Prop
  /-- A worker receives a PENDING job from the channel. -/
  | fetch (st : EngineState) (i : Nat) (jobID : Nat)
      (hw : st.workers.get? i = some .idle)
      (hj : jobStatusOf st.store jobID = some JobStatusPending) :
      EngineStep cfg st { st with workers := st.workers.set i (.fetched jobID) }
  /-- `processJob`: persist IN_PROGRESS and `started_at = now`. -/
  | mark (st : EngineState) (i : Nat) (jobID : Nat) (now : Nat)
      (hw : st.workers.get? i = some (.fetched jobID)) :
      EngineStep cfg st
        { store := setJobStatus st.store jobID JobStatusInProgress (some now) none
          workers := st.workers.set i (.marked jobID) }
  /-- `executeUpgrade`: `sem.Acquire()` — only possible while fewer
  than `MaxPerCMTS` permits of this job's CMTS are held. -/
  | acquire (st : EngineState) (i : Nat) (jobID c : Nat)
      (hw : st.workers.get? i = some (.marked jobID))
      (hc : jobCmtsOf st.store jobID = some c)
      (hcap : permitsHeld st c < cfg.maxPerCMTS) :
      EngineStep cfg st { st with workers := st.workers.set i (.holding jobID) }
  /-- Upgrade succeeded: release the permit, persist COMPLETED. -/
  | completeOk (st : EngineState) (i : Nat) (jobID : Nat) (started now : Nat)
      (hw : st.workers.get? i = some (.holding jobID)) :
      EngineStep cfg st
        { store := setJobStatus st.store jobID JobStatusCompleted (some started) (some now)
          workers := st.workers.set i .idle }
  /-- Upgrade failed, retries left (`handleJobFailure` retry branch):
  release the permit, persist PENDING with `started_at` cleared. -/
  | failRetry (st : EngineState) (i : Nat) (jobID : Nat)
      (hw : st.workers.get? i = some (.holding jobID)) :
      EngineStep cfg st
        { store := setJobStatus st.store jobID JobStatusPending none none
          workers := st.workers.set i .idle }
  /-- Upgrade failed terminally (`handleJobFailure` exhausted branch):
  release the permit, persist FAILED with `completed_at = now`. -/
  | failTerminal (st : EngineState) (i : Nat) (jobID : Nat) (started now : Nat)
      (hw : st.workers.get? i = some (.holding jobID)) :
      EngineStep cfg st
        { store := setJobStatus st.store jobID JobStatusFailed (some started) (some now)
          workers := st.workers.set i .idle }

/-- Reachability: reflexive-transitive closure of the step relation. -/
def EngineReaches (cfg : Config) : EngineState → EngineState → Prop :=
  Relation.ReflTransGen (EngineStep cfg)

/-! ## Spec-side version extraction (for the refinement check of C7)

The spec describes the version token as `v?<digits>(.<digits>)+`,
i.e. at least TWO dot-separated digit runs ("two-component versions
like v2.0 are extractable").  This definition follows the spec's
words, to be compared against `extractFirmwareVersion`, which follows
the code. -/

/-- Match the spec's `v?<digits>(.<digits>)+` anchored here, returning
the version text without the `v`. -/
def specVersionAt (cs : List Char) : Option (List Char) :=
  let cs1 := match cs with
             | 'v' :: rest => rest
             | _ => cs
  match cs1.span Char.isDigit with
  | ([], _) => none
  | (d1, rest1) =>
    match rest1 with
    | '.' :: rest2 =>
      match rest2.span Char.isDigit with
      | ([], _) => none
      | (d2, rest3) => some (d1 ++ '.' :: d2 ++ dotNumTail rest3)
    | _ => none

def specScanVersion : List Char → Option (List Char)
  | [] => none
  | c :: rest =>
      match specVersionAt (c :: rest) with
      | some v => some v
      | none => specScanVersion rest

/-- Version extraction as the spec words it (leftmost
`v?<digits>(.<digits>)+` token, or `""`). -/
def specExtractVersion (filename : String) : String :=
  match specScanVersion filename.data with
  | some v => String.mk v
  | none => ""

/-! ## Concrete fixtures used by the counterexamples and witnesses -/

/-- A pending-job row template. -/
def mkJobRow (id modemID : Nat) (mac : String) : UpgradeJob :=
  { id := id, modemID := modemID, ruleID := 1, cmtsID := 1
    macAddress := mac, status := JobStatusPending
    tftpServerIP := "192.0.2.50", firmwareFilename := "fw-1.2.3.bin"
    retryCount := 0, maxRetries := 3, errorMessage := none
    createdAt := 100, startedAt := none, completedAt := none }

/- C7: a modem already running the two-component version named in the
rule's filename. -/

def c7Modem : CableModem :=
  { id := 1, cmtsID := 1, macAddress := "00:01:5C:AA:BB:CC", ipAddress := "10.1.1.1"
    sysDescr := "Arris SB8200", currentFirmware := "2.0", signalLevel := 3
    status := "online", lastSeen := 100 }

def c7Rule : UpgradeRule :=
  { id := 1, name := "two-component", matchType := "SYSDESCR_REGEX"
    matchCriteria := { startMAC := "", endMAC := "", pattern := "Arris" }
    tftpServerIP := "192.0.2.50", firmwareFilename := "fw-v2.0.bin"
    enabled := true, priority := 100 }

/- C9 witness: the compiled form of the pattern `Arris`, which does
not accept the empty string. -/

def c9Criteria : MatchCriteria := { startMAC := "", endMAC := "", pattern := "Arris" }

def c9Regex : Regex :=
  .cat (.lit 'A') (.cat (.lit 'r') (.cat (.lit 'r') (.cat (.lit 'i')
    (.cat (.lit 's') .eps))))

/- C6 witness: a device that answers everything. -/

def c6Device : SnmpDevice :=
  { sysDescrGet := .ok 1, setOutcome := fun _ => .ok () }

/-- Whether the wire operation `op` succeeded against device `dev`
(for the GET, success means a reply with at least one binding). -/
def opSucceeded (dev : SnmpDevice) : SnmpOp → Bool
  | .getSysDescr =>
      match dev.sysDescrGet with
      | .ok n => decide (0 < n)
      | .error _ => false
  | .setServer =>
      match dev.setOutcome OIDDocsDevSwServer with
      | .ok _ => true
      | .error _ => false
  | .setFilename =>
      match dev.setOutcome OIDDocsDevSwFilename with
      | .ok _ => true
      | .error _ => false
  | .setAdminStatus =>
      match dev.setOutcome OIDDocsDevSwAdminStatus with
      | .ok _ => true
      | .error _ => false

/-- The full wire sequence of a successful trigger. -/
def triggerSeq : List SnmpOp :=
  [.getSysDescr, .setServer, .setFilename, .setAdminStatus]

/- C2 witness fixture. -/

def c2Job : UpgradeJob :=
  { mkJobRow 7 3 "00:01:5C:AA:BB:CC" with
    status := JobStatusInProgress, retryCount := 2, startedAt := some 950 }

/- C10 witness fixture. -/

def c10Store : Store :=
  { modems := [], rules := [], jobs := [mkJobRow 1 1 "00:01:5C:AA:BB:CC"]
    activity := [], nextJobID := 2 }

def c10Update : UpgradeJob :=
  { mkJobRow 1 1 "FF:FF:FF:FF:FF:FF" with
    status := JobStatusInProgress, tftpServerIP := "203.0.113.9"
    firmwareFilename := "other-9.9.9.bin", maxRetries := 99
    retryCount := 1, startedAt := some 200 }

/- C3: two PENDING jobs for the same MAC, nothing in progress. -/

def c3Job1 : UpgradeJob := mkJobRow 1 1 "00:01:5C:AA:BB:CC"

def c3Job2 : UpgradeJob := { mkJobRow 2 2 "00:01:5C:AA:BB:CC" with createdAt := 100 }

def c3Store : Store :=
  { modems := [], rules := [], jobs := [c3Job1, c3Job2], activity := [], nextJobID := 3 }

/- C5: an in-progress job on its second attempt that fails with a
transport error at time 1000. -/

def c5Job : UpgradeJob :=
  { mkJobRow 4 2 "00:01:5C:AA:BB:CC" with
    status := JobStatusInProgress, retryCount := 1, startedAt := some 990 }

def c5Outcome : FailureOutcome := handleJobFailure c5Job "SNMP transport error" 1000

/-- The store right after the failure write-back: the job row is
PENDING again (there is no `retry_after` column in the schema). -/
def c5Store : Store :=
  { modems := [], rules := [], jobs := [c5Outcome.job], activity := [], nextJobID := 5 }

/- C1: two workers, per-CMTS cap 1, two pending jobs on CMTS 1. -/

def c1Config : Config :=
  { workers := 2, retryAttempts := 3, pollIntervalSec := 30
    jobTimeoutSec := 300, maxPerCMTS := 1 }

def c1Store0 : Store :=
  { modems := [], rules := []
    jobs := [mkJobRow 1 1 "00:01:5C:AA:BB:01", mkJobRow 2 2 "00:01:5C:AA:BB:02"]
    activity := [], nextJobID := 3 }

def c1S0 : EngineState := { store := c1Store0, workers := [.idle, .idle] }

def c1S1 : EngineState := { c1S0 with workers := c1S0.workers.set 0 (.fetched 1) }

def c1S2 : EngineState := { c1S1 with workers := c1S1.workers.set 1 (.fetched 2) }

def c1S3 : EngineState :=
  { store := setJobStatus c1S2.store 1 JobStatusInProgress (some 10) none
    workers := c1S2.workers.set 0 (.marked 1) }

def c1S4 : EngineState :=
  { store := setJobStatus c1S3.store 2 JobStatusInProgress (some 11) none
    workers := c1S3.workers.set 1 (.marked 2) }

/- C4: 1001 eligible modems all matched by one regex rule — one more
than the 1000-row dedup window of `EvaluateRules`. -/

/-- Distinct MACs (distinct lengths, so injectivity is structural). -/
def c4Mac (i : Nat) : String := String.mk (List.replicate (i + 1) 'A')

def c4Modem (i : Nat) : CableModem :=
  { id := i, cmtsID := 1, macAddress := c4Mac i, ipAddress := "10.0.0.9"
    sysDescr := "X", currentFirmware := "", signalLevel := 0
    status := "online", lastSeen := 500 }

def c4Rule : UpgradeRule :=
  { id := 1, name := "all", matchType := "SYSDESCR_REGEX"
    matchCriteria := { startMAC := "", endMAC := "", pattern := "X" }
    tftpServerIP := "192.0.2.50", firmwareFilename := "fw-9.9.9.bin"
    enabled := true, priority := 100 }

def c4Store0 : Store :=
  { modems := (List.range 1001).map c4Modem, rules := [c4Rule]
    jobs := [], activity := [], nextJobID := 1 }

/-- The job `EvaluateRules` creates for modem `i` under rowid `n` at
second `now`. -/
def c4Job (n i now : Nat) : UpgradeJob :=
  { id := n, modemID := i, ruleID := 1, cmtsID := 1
    macAddress := c4Mac i, status := JobStatusPending
    tftpServerIP := "192.0.2.50", firmwareFilename := "fw-9.9.9.bin"
    retryCount := 0, maxRetries := 3, errorMessage := none
    createdAt := now, startedAt := none, completedAt := none }

/-- The run of jobs created for the modems `is`, rowids from `n`. -/
def c4Jobs (n now : Nat) : List Nat → List UpgradeJob
  | [] => []
  | i :: is => c4Job n i now :: c4Jobs (n + 1) now is

/-- The store after the first evaluation pass over `c4Store0`: one
PENDING job per modem, rowids 1..1001, all stamped `created_at = 5`. -/
def c4Store1 : Store :=
  { c4Store0 with
    jobs := c4Jobs 1 5 (List.range 1001)
    nextJobID := 1 + 1001 }

/-- "The matcher and `ShouldUpgrade` would fire for this modem": the
part of the per-modem step that does not look at the job table. -/
def matchReady (rules : List UpgradeRule) (m : CableModem) : Prop :=
  ∃ r, MatchModemToRules m rules = some r ∧ ShouldUpgrade m r = true

/-- The store holds a PENDING or IN_PROGRESS job for this MAC. -/
def hasLiveJob (s : Store) (mac : String) : Prop :=
  ∃ j ∈ s.jobs, j.macAddress = mac ∧
    (j.status = JobStatusPending ∨ j.status = JobStatusInProgress)

/-- The store after the C10 witness update. -/
def c10After : Store :=
  match UpdateJob c10Store c10Update with
  | .ok s => s
  | .error _ => c10Store

/-- C4 witness fixture: one eligible matched modem, no jobs yet. -/
def c4WitStore : Store :=
  { modems := [c4Modem 0], rules := [c4Rule], jobs := [], activity := [], nextJobID := 1 }

/-! # Theorems -/

/-! ## Shared helper lemmas -/

theorem insertByKeyDesc_perm {α} (k : α → Nat) (x : α) (l : List α) :
    List.Perm (insertByKeyDesc k x l) (x :: l) := by
  induction l with
  | nil => exact List.Perm.refl _
  | cons y ys ih =>
    unfold insertByKeyDesc
    by_cases h : k y ≤ k x
    · rw [if_pos h]
    · rw [if_neg h]
      exact (ih.cons y).trans (List.Perm.swap x y ys)

theorem sortByKeyDesc_perm {α} (k : α → Nat) (l : List α) :
    List.Perm (sortByKeyDesc k l) l := by
  induction l with
  | nil => exact List.Perm.refl _
  | cons x xs ih =>
    unfold sortByKeyDesc
    exact (insertByKeyDesc_perm k x _).trans (ih.cons x)

theorem sortByKeyDesc_eq_self {α} (k : α → Nat) (v : Nat) (l : List α)
    (h : ∀ a ∈ l, k a = v) : sortByKeyDesc k l = l := by
  induction l with
  | nil => rfl
  | cons x xs ih =>
    have hs : sortByKeyDesc k xs = xs := ih (fun a ha => h a (List.mem_cons_of_mem x ha))
    show insertByKeyDesc k x (sortByKeyDesc k xs) = x :: xs
    rw [hs]
    cases xs with
    | nil => rfl
    | cons y ys =>
      unfold insertByKeyDesc
      rw [if_pos]
      rw [h y (List.mem_cons_of_mem x (List.mem_cons_self y ys)),
        h x (List.mem_cons_self x _)]

theorem mem_of_mem_ListJobs {s : Store} {status : String} {limit : Nat} {j : UpgradeJob}
    (h : j ∈ ListJobs s status limit) : j ∈ s.jobs := by
  unfold ListJobs at h
  have hsorted : j ∈ sortByKeyDesc (fun j => j.createdAt)
      (if status = "" then s.jobs else s.jobs.filter (fun j => j.status == status)) := by
    by_cases hl : limit > 0
    · rw [if_pos hl] at h
      exact List.take_subset _ _ h
    · rw [if_neg hl] at h
      exact h
  have hrows := (sortByKeyDesc_perm _ _).mem_iff.mp hsorted
  by_cases hst : status = ""
  · rw [if_pos hst] at hrows; exact hrows
  · rw [if_neg hst] at hrows
    exact List.mem_of_mem_filter hrows

theorem status_of_mem_ListJobs {s : Store} {status : String} {limit : Nat} {j : UpgradeJob}
    (hst : status ≠ "") (h : j ∈ ListJobs s status limit) : j.status = status := by
  unfold ListJobs at h
  have hsorted : j ∈ sortByKeyDesc (fun j => j.createdAt)
      (if status = "" then s.jobs else s.jobs.filter (fun j => j.status == status)) := by
    by_cases hl : limit > 0
    · rw [if_pos hl] at h
      exact List.take_subset _ _ h
    · rw [if_neg hl] at h
      exact h
  have hrows := (sortByKeyDesc_perm _ _).mem_iff.mp hsorted
  rw [if_neg hst] at hrows
  have := List.of_mem_filter hrows
  exact beq_iff_eq.mp this

theorem mem_ListJobs_of_mem {s : Store} {status : String} {limit : Nat} {j : UpgradeJob}
    (hne : status ≠ "") (hj : j ∈ s.jobs) (hst : j.status = status)
    (hlen : (s.jobs.filter (fun x => x.status == status)).length ≤ limit) :
    j ∈ ListJobs s status limit := by
  unfold ListJobs
  rw [if_neg hne]
  have hmemf : j ∈ s.jobs.filter (fun x => x.status == status) :=
    List.mem_filter.mpr ⟨hj, beq_iff_eq.mpr hst⟩
  have hperm := sortByKeyDesc_perm (fun j : UpgradeJob => j.createdAt)
    (s.jobs.filter (fun x => x.status == status))
  have hmems : j ∈ sortByKeyDesc (fun j : UpgradeJob => j.createdAt)
      (s.jobs.filter (fun x => x.status == status)) := hperm.mem_iff.mpr hmemf
  by_cases hl : limit > 0
  · rw [if_pos hl]
    have hlen2 : (sortByKeyDesc (fun j : UpgradeJob => j.createdAt)
        (s.jobs.filter (fun x => x.status == status))).length ≤ limit := by
      rw [hperm.length_eq]; exact hlen
    rw [List.take_of_length_le hlen2]
    exact hmems
  · rw [if_neg hl]
    exact hmems

/-! ## C8 — eligibility filter -/

theorem eligibleModem_iff (m : CableModem) :
    eligibleModem m = true ↔
      m.status = "online" ∧ (-15 : ℚ) ≤ m.signalLevel ∧ m.signalLevel ≤ 15 := by
  unfold eligibleModem
  split_ifs with h1 h2
  · simp only [Bool.false_eq_true, false_iff]
    rintro ⟨h, -⟩
    exact h1 h
  · simp only [Bool.false_eq_true, false_iff]
    rintro ⟨-, hlo, hhi⟩
    rcases h2 with h | h
    · exact absurd hlo (not_le.mpr h)
    · exact absurd hhi (not_le.mpr h)
  · push_neg at h1 h2
    simp only [true_iff]
    exact ⟨h1, h2.1, h2.2⟩

/-- Claim C8: `filter_eligible` keeps exactly the modems whose status
is `online` and whose signal level lies in the inclusive window
`[-15.0, +15.0]` dBmV (the default bounds, hard-coded in the matcher):
a modem exactly on either boundary is kept, one a tenth of a dBmV
outside is not. -/
theorem c8_filter_eligible (modems : List CableModem) (m : CableModem) :
    m ∈ FilterEligibleModems modems ↔
      m ∈ modems ∧ m.status = "online" ∧
        (-15 : ℚ) ≤ m.signalLevel ∧ m.signalLevel ≤ 15 := by
  rw [FilterEligibleModems, List.mem_filter, eligibleModem_iff]

/-! ## C7 — `should_upgrade` and version extraction -/

/-- Claim C7 counterexample: the spec's version token
`v?<digits>(.<digits>)+` extracts `2.0` from `fw-v2.0.bin`, and the
modem's `current_firmware` is exactly `2.0`, yet `ShouldUpgrade`
returns `true`: the code's extraction regex
`v?(\d+\.\d+\.\d+(?:\.\d+)*)` demands at least three numeric
components, so two-component versions are not extractable and the
upgrade is assumed needed. -/
theorem c7_counterexample :
    specExtractVersion c7Rule.firmwareFilename = "2.0" ∧
    c7Modem.currentFirmware = "2.0" ∧
    ShouldUpgrade c7Modem c7Rule = true := by
  refine ⟨by decide, by decide, by decide⟩

/-- Claim C7 (amended): `ShouldUpgrade` returns `false` exactly when
the modem's firmware is known, a version is extractable from the
rule's filename, and the two are equal — where the extractable
version token is `v?\d+\.\d+\.\d+(\.\d+)*` (at least THREE numeric
components, leftmost occurrence): `fw-v2.0.bin` yields nothing while
`arris-sb8200-v2.0.0.bin` yields `2.0.0`. -/
theorem c7_amended_should_upgrade :
    (∀ (m : CableModem) (r : UpgradeRule),
        ShouldUpgrade m r = false ↔
          m.currentFirmware ≠ "" ∧
          extractFirmwareVersion r.firmwareFilename ≠ "" ∧
          m.currentFirmware = extractFirmwareVersion r.firmwareFilename) ∧
    extractFirmwareVersion "fw-v2.0.bin" = "" ∧
    extractFirmwareVersion "arris-sb8200-v2.0.0.bin" = "2.0.0" := by
  refine ⟨?_, by decide, by decide⟩
  intro m r
  by_cases h1 : m.currentFirmware = ""
  · simp [ShouldUpgrade, h1]
  · by_cases h2 : extractFirmwareVersion r.firmwareFilename = ""
    · simp [ShouldUpgrade, h1, h2]
    · by_cases h3 : m.currentFirmware = extractFirmwareVersion r.firmwareFilename
      · simp [ShouldUpgrade, h1, h2, h3]
      · simp [ShouldUpgrade, h1, h2, h3]

/-! ## C9 — empty sysDescr against a non-empty pattern -/

/-- Claim C9 counterexample: `.*` is a non-empty, valid pattern, yet
the matcher reports a match against the empty `sys_descr` (Go's
`MatchString` finds the empty-width match). -/
theorem c9_counterexample :
    (".*" : String) ≠ "" ∧
    matchSysDescrRegex "" { startMAC := "", endMAC := "", pattern := ".*" } =
      Except.ok true := by
  exact ⟨by decide, rfl⟩

/-- Claim C9 (amended): an empty `sys_descr` matches a non-empty
pattern exactly when the compiled pattern accepts the empty string;
whenever it does not (`nullable = false`), the matcher reports no
match. -/
theorem c9_amended_empty_sysdescr (criteria : MatchCriteria) (re : Regex)
    (hp : criteria.pattern ≠ "") (hc : compileRegex criteria.pattern = some re)
    (hn : re.nullable = false) :
    matchSysDescrRegex "" criteria = Except.ok false := by
  unfold matchSysDescrRegex
  rw [if_neg hp, hc]
  show Except.ok (re.searchMatch "".data) = Except.ok false
  have hdata : ("" : String).data = [] := rfl
  rw [hdata, show re.searchMatch [] = re.nullable from rfl, hn]

theorem c9_amended_empty_sysdescr_witness :
    matchSysDescrRegex "" c9Criteria = Except.ok false :=
  c9_amended_empty_sysdescr c9Criteria c9Regex (by decide) (by decide) (by decide)

/-! ## C2 — failure handling, retry accounting and backoff -/

theorem ite_cap_eq_min (a : Nat) : (if a > 300 then 300 else a) = min a 300 := by
  split_ifs with h <;> omega

/-- The retry branch of `handleJobFailure`, shared by several results. -/
theorem handleJobFailure_retry (job : UpgradeJob) (errMsg : String) (now : Nat)
    (hr : job.retryCount + 1 < job.maxRetries) :
    (handleJobFailure job errMsg now).job.status = JobStatusPending ∧
    (handleJobFailure job errMsg now).job.startedAt = none ∧
    (handleJobFailure job errMsg now).job.errorMessage = some errMsg ∧
    (handleJobFailure job errMsg now).backoffSeconds =
      some (min (30 * 2 ^ job.retryCount) 300) := by
  refine ⟨?_, ?_, ?_, ?_⟩
  · simp [handleJobFailure, hr]
  · simp [handleJobFailure, hr]
  · simp [handleJobFailure, hr]
  · simp only [handleJobFailure, hr, if_pos, Nat.add_sub_cancel]
    rw [ite_cap_eq_min]

/-- Claim C2: `handleJobFailure` increments `retry_count` by exactly
one; while retries remain the row returns to PENDING with `started_at`
cleared, `error_message` recorded and backoff
`min(30·2^(retry_count−1), 300)` seconds computed; otherwise the row
becomes FAILED with `completed_at = now` and an `UPGRADE_FAILED`
activity whose message reads "... after <retry_count> attempts: ...". -/
theorem c2_handle_job_failure (job : UpgradeJob) (errMsg : String) (now : Nat) :
    (handleJobFailure job errMsg now).job.retryCount = job.retryCount + 1 ∧
    (job.retryCount + 1 < job.maxRetries →
      (handleJobFailure job errMsg now).job.status = JobStatusPending ∧
      (handleJobFailure job errMsg now).job.startedAt = none ∧
      (handleJobFailure job errMsg now).job.errorMessage = some errMsg ∧
      (handleJobFailure job errMsg now).backoffSeconds =
        some (min (30 * 2 ^ job.retryCount) 300)) ∧
    (¬ job.retryCount + 1 < job.maxRetries →
      (handleJobFailure job errMsg now).job.status = JobStatusFailed ∧
      (handleJobFailure job errMsg now).job.completedAt = some now ∧
      (handleJobFailure job errMsg now).activity.eventType = EventUpgradeFailed ∧
      (handleJobFailure job errMsg now).activity.message =
        "Upgrade permanently failed for modem " ++ job.macAddress ++ " after "
          ++ toString (job.retryCount + 1) ++ " attempts: " ++ errMsg) := by
  by_cases h : job.retryCount + 1 < job.maxRetries
  · exact ⟨by simp [handleJobFailure, h], fun _ => handleJobFailure_retry job errMsg now h,
      fun hc => absurd h hc⟩
  · refine ⟨?_, fun hc => absurd hc h, fun _ => ⟨?_, ?_, ?_, ?_⟩⟩
    all_goals simp [handleJobFailure, h]

theorem c2_handle_job_failure_witness :
    ¬ c2Job.retryCount + 1 < c2Job.maxRetries ∧
    (handleJobFailure c2Job "err" 50).job.status = JobStatusFailed ∧
    (handleJobFailure c2Job "err" 50).job.completedAt = some 50 := by
  have h := c2_handle_job_failure c2Job "err" 50
  exact ⟨by decide, (h.2.2 (by decide)).1, (h.2.2 (by decide)).2.1⟩

/-! ## C10 — job snapshot fields are immutable under UpdateJob -/

/-- Claim C10: every successful `UpdateJob` leaves `modem_id`,
`rule_id`, `cmts_id`, `mac_address`, `tftp_server_ip`,
`firmware_filename`, `max_retries` and `created_at` of every stored
row unchanged (only status, retry count, error message and the two
timestamps are in the UPDATE's SET list). -/
theorem c10_update_job_frame (s : Store) (j : UpgradeJob) (s2 : Store)
    (h : UpdateJob s j = Except.ok s2) :
    s2.jobs.length = s.jobs.length ∧
    ∀ (i : Nat) (hi : i < s.jobs.length) (hi2 : i < s2.jobs.length),
      (s2.jobs[i]).modemID = (s.jobs[i]).modemID ∧
      (s2.jobs[i]).ruleID = (s.jobs[i]).ruleID ∧
      (s2.jobs[i]).cmtsID = (s.jobs[i]).cmtsID ∧
      (s2.jobs[i]).macAddress = (s.jobs[i]).macAddress ∧
      (s2.jobs[i]).tftpServerIP = (s.jobs[i]).tftpServerIP ∧
      (s2.jobs[i]).firmwareFilename = (s.jobs[i]).firmwareFilename ∧
      (s2.jobs[i]).maxRetries = (s.jobs[i]).maxRetries ∧
      (s2.jobs[i]).createdAt = (s.jobs[i]).createdAt := by
  unfold UpdateJob at h
  split_ifs at h with hany
  · have hs2 : s2 = { s with jobs := s.jobs.map (fun row =>
        if row.id == j.id then applyJobUpdate j row else row) } := by
      cases h; rfl
    subst hs2
    refine ⟨by simp, ?_⟩
    intro i hi hi2
    simp only [List.getElem_map]
    by_cases hid : (s.jobs[i]).id == j.id
    · simp [hid, applyJobUpdate]
    · simp [hid]

theorem c10_update_job_frame_witness :
    c10After.jobs.length = c10Store.jobs.length :=
  (c10_update_job_frame c10Store c10Update c10After rfl).1

/-! ## C3 — pending-sweep deduplication -/

theorem sweepQueue_mem (macs : List String) :
    ∀ (free : Nat) (l : List UpgradeJob) (j : UpgradeJob),
      j ∈ sweepQueue macs free l →
      j ∈ l ∧ macs.contains j.macAddress = false := by
  intro free l
  induction l generalizing free with
  | nil =>
    intro j h
    simp [sweepQueue] at h
  | cons a rest ih =>
    intro j h
    unfold sweepQueue at h
    by_cases hc : macs.contains a.macAddress
    · rw [if_pos hc] at h
      have := ih free j h
      exact ⟨List.mem_cons_of_mem a this.1, this.2⟩
    · rw [if_neg hc] at h
      cases free with
      | zero => simp at h
      | succ f =>
        rcases List.mem_cons.mp h with heq | htail
        · subst heq
          exact ⟨List.mem_cons_self _ _, Bool.not_eq_true _ ▸ eq_false_of_ne_true hc⟩
        · have := ih f j htail
          exact ⟨List.mem_cons_of_mem a this.1, this.2⟩

/-- Claim C3 counterexample: two distinct PENDING jobs with the same
MAC and nothing IN_PROGRESS — the sweep dispatches BOTH in the same
tick (the in-progress MAC set is built once, at the start of the tick,
and is not updated as jobs are dispatched). -/
theorem c3_counterexample :
    c3Job1.macAddress = c3Job2.macAddress ∧
    c3Job1.id ≠ c3Job2.id ∧
    checkPendingJobs c3Store 100 = [c3Job1, c3Job2] := by
  refine ⟨by decide, by decide, by decide⟩

/-- Claim C3 (amended): the sweep never dispatches a PENDING job whose
MAC appears among the IN_PROGRESS jobs listed at the start of the
tick; but several PENDING jobs with the same MAC (and no IN_PROGRESS
job) are all dispatched in one tick, so the claimed at-most-one
IN_PROGRESS invariant can then be violated by the workers. -/
theorem c3_amended_sweep_dedup (s : Store) (free : Nat) (j : UpgradeJob)
    (h : j ∈ checkPendingJobs s free) :
    j ∈ ListJobs s JobStatusPending 100 ∧
    ∀ j2 ∈ ListJobs s JobStatusInProgress 100, j2.macAddress ≠ j.macAddress := by
  unfold checkPendingJobs at h
  have hm := sweepQueue_mem _ _ _ _ h
  refine ⟨hm.1, ?_⟩
  intro j2 hj2 heq
  have hcontains : ((ListJobs s JobStatusInProgress 100).map
      (fun j => j.macAddress)).contains j.macAddress = true := by
    have : j.macAddress ∈ (ListJobs s JobStatusInProgress 100).map
        (fun j => j.macAddress) :=
      List.mem_map.mpr ⟨j2, hj2, heq⟩
    exact List.elem_eq_true_of_mem this
  rw [hm.2] at hcontains
  exact Bool.false_ne_true hcontains

theorem c3_amended_sweep_dedup_witness :
    c3Job1 ∈ ListJobs c3Store JobStatusPending 100 ∧
    ∀ j2 ∈ ListJobs c3Store JobStatusInProgress 100,
      j2.macAddress ≠ c3Job1.macAddress :=
  c3_amended_sweep_dedup c3Store 100 c3Job1 (by decide)

/-! ## C5 — retry backoff is computed but not enforced by the sweep -/

theorem checkPendingJobs_singleton (j : UpgradeJob) (free : Nat)
    (hs : j.status = JobStatusPending) (hf : 0 < free) :
    checkPendingJobs
      { modems := [], rules := [], jobs := [j], activity := [], nextJobID := 0 }
      free = [j] := by
  have hpend : ListJobs
      { modems := [], rules := [], jobs := [j], activity := [], nextJobID := 0 }
      JobStatusPending 100 = [j] := by
    unfold ListJobs
    simp only [if_neg (show ¬(JobStatusPending = "") by decide)]
    rw [show List.filter (fun x => x.status == JobStatusPending) [j] = [j] by
      simp [List.filter, hs]]
    rfl
  have hip : ListJobs
      { modems := [], rules := [], jobs := [j], activity := [], nextJobID := 0 }
      JobStatusInProgress 100 = [] := by
    unfold ListJobs
    simp only [if_neg (show ¬(JobStatusInProgress = "") by decide)]
    rw [show List.filter (fun x => x.status == JobStatusInProgress) [j] = [] by
      simp [List.filter, hs, JobStatusPending, JobStatusInProgress]]
    rfl
  unfold checkPendingJobs
  rw [hpend, hip]
  cases free with
  | zero => exact absurd hf (by simp)
  | succ f =>
    show sweepQueue [] (f + 1) [j] = [j]
    unfold sweepQueue
    rw [if_neg (by simp)]
    rfl

/-- Claim C5 counterexample: a job failing its second attempt
(`retry_count` becomes 2, `max_retries` 3) computes a 60-second
backoff, returns to PENDING — and the very next sweep over the
resulting store dispatches it.  Nothing in the store or the sweep
records or consults a retry-after time, so the job is re-dispatched at
the next tick (~30 s), not after 60 s. -/
theorem c5_counterexample :
    c5Outcome.job.retryCount = 2 ∧
    c5Outcome.backoffSeconds = some 60 ∧
    c5Outcome.job.status = JobStatusPending ∧
    c5Outcome.job.startedAt = none ∧
    checkPendingJobs c5Store 100 = [c5Outcome.job] := by
  refine ⟨by decide, by decide, by decide, by decide, by decide⟩

/-- Claim C5 (amended): after a retryable failure the job returns to
PENDING with the backoff only computed (and logged), and any sweep
over the resulting store — regardless of how much time has passed —
dispatches it again (here: a store holding just the failed job). -/
theorem c5_amended_redispatch (job : UpgradeJob) (errMsg : String) (now free : Nat)
    (hr : job.retryCount + 1 < job.maxRetries) (hf : 0 < free) :
    (handleJobFailure job errMsg now).job.status = JobStatusPending ∧
    (handleJobFailure job errMsg now).backoffSeconds =
      some (min (30 * 2 ^ job.retryCount) 300) ∧
    checkPendingJobs
      { modems := [], rules := [], jobs := [(handleJobFailure job errMsg now).job]
        activity := [], nextJobID := 0 } free =
      [(handleJobFailure job errMsg now).job] := by
  have hbranch := handleJobFailure_retry job errMsg now hr
  exact ⟨hbranch.1, hbranch.2.2.2,
    checkPendingJobs_singleton _ free hbranch.1 hf⟩

theorem c5_amended_redispatch_witness :
    (handleJobFailure c5Job "e" 1000).job.status = JobStatusPending ∧
    (handleJobFailure c5Job "e" 1000).backoffSeconds =
      some (min (30 * 2 ^ c5Job.retryCount) 300) ∧
    checkPendingJobs
      { modems := [], rules := [], jobs := [(handleJobFailure c5Job "e" 1000).job]
        activity := [], nextJobID := 0 } 5 =
      [(handleJobFailure c5Job "e" 1000).job] :=
  c5_amended_redispatch c5Job "e" 1000 5 (by decide) (by decide)

/-! ## C6 — upgrade-trigger wire sequence -/

/-- Claim C6: every `TriggerFirmwareUpgrade` call starts with the
liveness GET of sysDescr; the issued operations form an initial
segment of GET, SET-server, SET-filename, SET-admin-status (so the
three SETs occur in that order); the call succeeds exactly when the
whole sequence ran and the final SET succeeded; and on error every
operation strictly before the last issued one had succeeded — i.e. a
failed step is the last thing issued and no later SET goes out. -/
theorem c6_trigger_sequence (dev : SnmpDevice) (modemIP tftpServer filename : String) :
    (TriggerFirmwareUpgrade dev modemIP tftpServer filename).2.head? =
      some SnmpOp.getSysDescr ∧
    (∃ k, 0 < k ∧
      (TriggerFirmwareUpgrade dev modemIP tftpServer filename).2 = triggerSeq.take k) ∧
    ((∃ u, (TriggerFirmwareUpgrade dev modemIP tftpServer filename).1 = Except.ok u) ↔
      ((TriggerFirmwareUpgrade dev modemIP tftpServer filename).2 = triggerSeq ∧
       opSucceeded dev SnmpOp.setAdminStatus = true)) ∧
    (∀ e, (TriggerFirmwareUpgrade dev modemIP tftpServer filename).1 = Except.error e →
      (TriggerFirmwareUpgrade dev modemIP tftpServer filename).2.dropLast.all
        (opSucceeded dev) = true) := by
  rcases hg : dev.sysDescrGet with eg | n
  · refine ⟨?_, ⟨1, by omega, ?_⟩, ?_, ?_⟩ <;>
      simp [TriggerFirmwareUpgrade, hg, triggerSeq, opSucceeded]
  · cases n with
    | zero =>
      refine ⟨?_, ⟨1, by omega, ?_⟩, ?_, ?_⟩ <;>
        simp [TriggerFirmwareUpgrade, hg, triggerSeq, opSucceeded]
    | succ m =>
      rcases hs : dev.setOutcome OIDDocsDevSwServer with es | u1
      · refine ⟨?_, ⟨2, by omega, ?_⟩, ?_, ?_⟩ <;>
          simp [TriggerFirmwareUpgrade, hg, hs, triggerSeq, opSucceeded]
      · rcases hf : dev.setOutcome OIDDocsDevSwFilename with ef | u2
        · refine ⟨?_, ⟨3, by omega, ?_⟩, ?_, ?_⟩ <;>
            simp [TriggerFirmwareUpgrade, hg, hs, hf, triggerSeq, opSucceeded]
        · rcases ha : dev.setOutcome OIDDocsDevSwAdminStatus with ea | u3
          · refine ⟨?_, ⟨4, by omega, ?_⟩, ?_, ?_⟩ <;>
              simp [TriggerFirmwareUpgrade, hg, hs, hf, ha, triggerSeq, opSucceeded]
          · refine ⟨?_, ⟨4, by omega, ?_⟩, ?_, ?_⟩ <;>
              simp [TriggerFirmwareUpgrade, hg, hs, hf, ha, triggerSeq, opSucceeded]

theorem c6_trigger_sequence_witness :
    (TriggerFirmwareUpgrade c6Device "m" "t" "f").2 = triggerSeq :=
  ((c6_trigger_sequence c6Device "m" "t" "f").2.2.1.mp ⟨(), rfl⟩).1

/-! ## C1 — per-CMTS cap: permits vs IN_PROGRESS rows -/

/-- Claim C1 counterexample: with configuration `workers = 2`,
`max_upgrades_per_cmts = 1`, two workers each pull a PENDING job of
the same CMTS and persist IN_PROGRESS before either has acquired the
per-CMTS permit (`processJob` writes the status; only `executeUpgrade`
acquires): a reachable state has 2 IN_PROGRESS jobs for CMTS 1 with a
cap of 1. -/
theorem c1_counterexample :
    EngineReaches c1Config c1S0 c1S4 ∧
    c1Config.maxPerCMTS = 1 ∧
    inProgressCount c1S4.store 1 = 2 := by
  refine ⟨?_, rfl, by decide⟩
  have h1 : EngineStep c1Config c1S0 c1S1 :=
    EngineStep.fetch c1S0 0 1 rfl rfl
  have h2 : EngineStep c1Config c1S1 c1S2 :=
    EngineStep.fetch c1S1 1 2 rfl rfl
  have h3 : EngineStep c1Config c1S2 c1S3 :=
    EngineStep.mark c1S2 0 1 10 rfl
  have h4 : EngineStep c1Config c1S3 c1S4 :=
    EngineStep.mark c1S3 1 2 11 rfl
  exact Relation.ReflTransGen.head h1 (Relation.ReflTransGen.head h2
    (Relation.ReflTransGen.head h3 (Relation.ReflTransGen.single h4)))

theorem length_filter_set_le_of_false {α} (p : α → Bool) (x : α) (hx : p x = false) :
    ∀ (l : List α) (i : Nat), ((l.set i x).filter p).length ≤ (l.filter p).length := by
  intro l
  induction l with
  | nil => intro i; simp
  | cons a rest ih =>
    intro i
    cases i with
    | zero =>
      by_cases ha : p a <;>
        simp only [List.set, List.filter_cons, ha, hx, if_pos, if_neg,
          Bool.false_eq_true, ite_false, ite_true, List.length_cons]
      · omega
      · omega
    | succ n =>
      by_cases ha : p a <;>
        simp only [List.set, List.filter_cons, ha, Bool.false_eq_true,
          ite_false, ite_true, List.length_cons]
      · exact Nat.succ_le_succ (ih n)
      · exact ih n

theorem length_filter_set_le_succ {α} (p : α → Bool) (x : α) :
    ∀ (l : List α) (i : Nat),
      ((l.set i x).filter p).length ≤ (l.filter p).length + 1 := by
  intro l
  induction l with
  | nil => intro i; simp
  | cons a rest ih =>
    intro i
    cases i with
    | zero =>
      by_cases ha : p a <;> by_cases hx : p x <;>
        simp only [List.set, List.filter_cons, ha, hx, Bool.false_eq_true,
          ite_false, ite_true, List.length_cons] <;> omega
    | succ n =>
      by_cases ha : p a <;>
        simp only [List.set, List.filter_cons, ha, Bool.false_eq_true,
          ite_false, ite_true, List.length_cons]
      · exact Nat.succ_le_succ (ih n)
      · exact ih n

theorem find?_id_map_cmts (l : List UpgradeJob) (f : UpgradeJob → UpgradeJob)
    (hid : ∀ r, (f r).id = r.id) (hcm : ∀ r, (f r).cmtsID = r.cmtsID) (j : Nat) :
    ((l.map f).find? (fun row => row.id == j)).map (fun x => x.cmtsID) =
      (l.find? (fun row => row.id == j)).map (fun x => x.cmtsID) := by
  induction l with
  | nil => rfl
  | cons a rest ih =>
    have hpred : ((f a).id == j) = (a.id == j) := by rw [hid]
    cases hab : a.id == j with
    | true => simp [List.find?, hpred, hab, hcm]
    | false => simpa [List.find?, hpred, hab] using ih

theorem jobCmtsOf_setJobStatus (s : Store) (jid : Nat) (st : String)
    (a b : Option Nat) (j : Nat) :
    jobCmtsOf (setJobStatus s jid st a b) j = jobCmtsOf s j := by
  unfold jobCmtsOf setJobStatus
  exact find?_id_map_cmts s.jobs _
    (fun r => by by_cases h : (r.id == jid) = true <;> simp [h])
    (fun r => by by_cases h : (r.id == jid) = true <;> simp [h]) j

theorem permitsHeld_eq (st : EngineState) (c : Nat) :
    permitsHeld st c = (st.workers.filter (holdsPermit st.store c)).length := rfl

theorem holdsPermit_setJobStatus (s : Store) (jid : Nat) (stt : String)
    (a b : Option Nat) (c : Nat) (w : WorkerPhase) :
    holdsPermit (setJobStatus s jid stt a b) c w = holdsPermit s c w := by
  cases w <;> simp [holdsPermit, jobCmtsOf_setJobStatus]

theorem permitsHeld_le_of_step (cfg : Config) (s t : EngineState) (c : Nat)
    (h : EngineStep cfg s t) (hc : permitsHeld s c ≤ cfg.maxPerCMTS) :
    permitsHeld t c ≤ cfg.maxPerCMTS := by
  rw [permitsHeld_eq] at hc
  rw [permitsHeld_eq]
  cases h with
  | fetch i jid hw hj =>
    exact le_trans (length_filter_set_le_of_false _ _ rfl s.workers i) hc
  | mark i jid now hw =>
    dsimp only
    rw [List.filter_congr (fun w _ =>
      holdsPermit_setJobStatus s.store jid JobStatusInProgress (some now) none c w)]
    exact le_trans (length_filter_set_le_of_false _ _ rfl _ i) hc
  | acquire i jid c2 hw hcm hcap =>
    dsimp only
    by_cases hcc : c2 = c
    · subst hcc
      rw [permitsHeld_eq] at hcap
      have := length_filter_set_le_succ (holdsPermit s.store c2)
        (WorkerPhase.holding jid) s.workers i
      omega
    · refine le_trans (length_filter_set_le_of_false _ _ ?_ _ i) hc
      show holdsPermit s.store c (WorkerPhase.holding jid) = false
      simp [holdsPermit, hcm, hcc]
  | completeOk i jid started now hw =>
    dsimp only
    rw [List.filter_congr (fun w _ =>
      holdsPermit_setJobStatus s.store jid JobStatusCompleted (some started) (some now) c w)]
    exact le_trans (length_filter_set_le_of_false _ _ rfl _ i) hc
  | failRetry i jid hw =>
    dsimp only
    rw [List.filter_congr (fun w _ =>
      holdsPermit_setJobStatus s.store jid JobStatusPending none none c w)]
    exact le_trans (length_filter_set_le_of_false _ _ rfl _ i) hc
  | failTerminal i jid started now hw =>
    dsimp only
    rw [List.filter_congr (fun w _ =>
      holdsPermit_setJobStatus s.store jid JobStatusFailed (some started) (some now) c w)]
    exact le_trans (length_filter_set_le_of_false _ _ rfl _ i) hc

/-- Claim C1 (amended): what the semaphore does guarantee — in every
state reachable from an all-idle start, at most `MaxPerCMTS` workers
per CMTS hold an upgrade permit (execute the SNMP work) at once.  The
IN_PROGRESS row count is NOT so bounded, because `processJob` persists
IN_PROGRESS before `executeUpgrade` acquires the permit. -/
theorem c1_amended_permit_bound (cfg : Config) (s0 st : EngineState)
    (h0 : ∀ w ∈ s0.workers, w = WorkerPhase.idle)
    (h : EngineReaches cfg s0 st) (c : Nat) :
    permitsHeld st c ≤ cfg.maxPerCMTS := by
  unfold EngineReaches at h
  induction h with
  | refl =>
    have hnil : s0.workers.filter (holdsPermit s0.store c) = [] := by
      rw [List.filter_eq_nil_iff]
      intro w hw
      rw [h0 w hw]
      simp [holdsPermit]
    rw [permitsHeld_eq, hnil]
    exact Nat.zero_le _
  | tail hsteps hstep ih =>
    exact permitsHeld_le_of_step cfg _ _ c hstep ih

theorem c1_amended_permit_bound_witness :
    permitsHeld { store := c1Store0, workers := [] } 1 ≤ c1Config.maxPerCMTS :=
  c1_amended_permit_bound c1Config { store := c1Store0, workers := [] }
    { store := c1Store0, workers := [] }
    (fun w hw => absurd hw (List.not_mem_nil w))
    Relation.ReflTransGen.refl 1

/-! ## C4 — rule-evaluation idempotence and the 1000-row dedup window -/

theorem evalModemStep_modems (rules : List UpgradeRule) (now : Nat) (s : Store)
    (m : CableModem) : (evalModemStep rules now s m).1.modems = s.modems := by
  unfold evalModemStep CreateJob
  cases MatchModemToRules m rules with
  | none => rfl
  | some r =>
    dsimp only
    split
    · rfl
    · split <;> rfl

theorem evalModemStep_rules (rules : List UpgradeRule) (now : Nat) (s : Store)
    (m : CableModem) : (evalModemStep rules now s m).1.rules = s.rules := by
  unfold evalModemStep CreateJob
  cases MatchModemToRules m rules with
  | none => rfl
  | some r =>
    dsimp only
    split
    · rfl
    · split <;> rfl

theorem evalModemStep_jobs_mono (rules : List UpgradeRule) (now : Nat) (s : Store)
    (m : CableModem) : ∃ tl, (evalModemStep rules now s m).1.jobs = s.jobs ++ tl := by
  unfold evalModemStep CreateJob
  cases MatchModemToRules m rules with
  | none => exact ⟨[], (List.append_nil _).symm⟩
  | some r =>
    dsimp only
    split
    · exact ⟨[], (List.append_nil _).symm⟩
    · split
      · exact ⟨[], (List.append_nil _).symm⟩
      · exact ⟨_, rfl⟩

theorem evalFold_modems (rules : List UpgradeRule) (now : Nat) :
    ∀ (ms : List CableModem) (acc : EvalResult),
      ((ms.foldl (evalFoldStep rules now) acc).store).modems = acc.store.modems := by
  intro ms
  induction ms with
  | nil => intro acc; rfl
  | cons m rest ih =>
    intro acc
    rw [List.foldl_cons, ih]
    exact evalModemStep_modems rules now acc.store m

theorem evalFold_rules (rules : List UpgradeRule) (now : Nat) :
    ∀ (ms : List CableModem) (acc : EvalResult),
      ((ms.foldl (evalFoldStep rules now) acc).store).rules = acc.store.rules := by
  intro ms
  induction ms with
  | nil => intro acc; rfl
  | cons m rest ih =>
    intro acc
    rw [List.foldl_cons, ih]
    exact evalModemStep_rules rules now acc.store m

theorem evalFold_jobs_mono (rules : List UpgradeRule) (now : Nat) :
    ∀ (ms : List CableModem) (acc : EvalResult),
      ∃ tl, ((ms.foldl (evalFoldStep rules now) acc).store).jobs = acc.store.jobs ++ tl := by
  intro ms
  induction ms with
  | nil => intro acc; exact ⟨[], (List.append_nil _).symm⟩
  | cons m rest ih =>
    intro acc
    obtain ⟨t1, h1⟩ := evalModemStep_jobs_mono rules now acc.store m
    obtain ⟨t2, h2⟩ := ih (evalFoldStep rules now acc m)
    refine ⟨t1 ++ t2, ?_⟩
    rw [List.foldl_cons] at *
    rw [h2]
    show (evalModemStep rules now acc.store m).1.jobs ++ t2 = _
    rw [h1, List.append_assoc]

theorem evalFold_const (rules : List UpgradeRule) (now : Nat) :
    ∀ (ms : List CableModem) (acc : EvalResult),
      (∀ m ∈ ms, evalModemStep rules now acc.store m = (acc.store, false)) →
      ms.foldl (evalFoldStep rules now) acc = acc := by
  intro ms
  induction ms with
  | nil => intro acc _; rfl
  | cons m rest ih =>
    intro acc h
    rw [List.foldl_cons]
    have hstep : evalFoldStep rules now acc m = acc := by
      unfold evalFoldStep
      rw [h m (List.mem_cons_self m rest)]
      rfl
    rw [hstep]
    exact ih acc (fun m2 hm2 => h m2 (List.mem_cons_of_mem m hm2))

theorem evalModemStep_eq_of_windowHit (rules : List UpgradeRule) (now : Nat)
    (s : Store) (m : CableModem)
    (h : matchReady rules m →
      ((ListJobs s JobStatusPending 1000 ++ ListJobs s JobStatusInProgress 1000).any
        (fun j => j.macAddress == m.macAddress)) = true) :
    evalModemStep rules now s m = (s, false) := by
  unfold evalModemStep
  cases hm : MatchModemToRules m rules with
  | none => rfl
  | some r =>
    dsimp only
    split
    · rfl
    · rename_i hns
      have hs : ShouldUpgrade m r = true := by
        revert hns
        cases ShouldUpgrade m r <;> simp
      rw [if_pos (h ⟨r, hm, hs⟩)]

theorem CreateJob_hasLive (s : Store) (job : UpgradeJob) (now : Nat)
    (hstat : job.status = JobStatusPending) :
    hasLiveJob ((CreateJob s job now).1) job.macAddress := by
  refine ⟨_, List.mem_append_right _ (List.mem_singleton.mpr rfl), rfl, Or.inl hstat⟩

theorem evalFold_establishes (rules : List UpgradeRule) (now : Nat) :
    ∀ (ms : List CableModem) (acc : EvalResult) (m : CableModem),
      m ∈ ms → matchReady rules m →
      hasLiveJob ((ms.foldl (evalFoldStep rules now) acc).store) m.macAddress := by
  intro ms
  induction ms with
  | nil => intro acc m hm; cases hm
  | cons m0 rest ih =>
    intro acc m hm hready
    rw [List.foldl_cons]
    rcases List.mem_cons.mp hm with heq | htail
    · subst heq
      have hlive : hasLiveJob ((evalFoldStep rules now acc m).store) m.macAddress := by
        obtain ⟨r, hmr, hsu⟩ := hready
        show hasLiveJob ((evalModemStep rules now acc.store m).1) m.macAddress
        unfold evalModemStep
        rw [hmr]
        dsimp only
        rw [if_neg (by rw [hsu]; simp)]
        by_cases hany : ((ListJobs acc.store JobStatusPending 1000 ++
            ListJobs acc.store JobStatusInProgress 1000).any
            (fun j => j.macAddress == m.macAddress)) = true
        · rw [if_pos hany]
          obtain ⟨j, hjmem, hjmac⟩ := List.any_eq_true.mp hany
          rcases List.mem_append.mp hjmem with hjp | hjip
          · exact ⟨j, mem_of_mem_ListJobs hjp, beq_iff_eq.mp hjmac,
              Or.inl (status_of_mem_ListJobs (by decide) hjp)⟩
          · exact ⟨j, mem_of_mem_ListJobs hjip, beq_iff_eq.mp hjmac,
              Or.inr (status_of_mem_ListJobs (by decide) hjip)⟩
        · rw [if_neg hany]
          exact CreateJob_hasLive acc.store _ now rfl
      obtain ⟨tl, htl⟩ := evalFold_jobs_mono rules now rest (evalFoldStep rules now acc m)
      obtain ⟨j, hjmem, hjmac, hjst⟩ := hlive
      exact ⟨j, by rw [htl]; exact List.mem_append_left _ hjmem, hjmac, hjst⟩
    · exact ih (evalFoldStep rules now acc m0) m htail hready

theorem any_window_of_hasLive (s : Store) (mac : String)
    (h : hasLiveJob s mac)
    (hp : (s.jobs.filter (fun x => x.status == JobStatusPending)).length ≤ 1000)
    (hip : (s.jobs.filter (fun x => x.status == JobStatusInProgress)).length ≤ 1000) :
    ((ListJobs s JobStatusPending 1000 ++ ListJobs s JobStatusInProgress 1000).any
      (fun j => j.macAddress == mac)) = true := by
  obtain ⟨j, hjmem, hjmac, hjst⟩ := h
  rw [List.any_eq_true]
  rcases hjst with hP | hIP
  · exact ⟨j, List.mem_append_left _ (mem_ListJobs_of_mem (by decide) hjmem hP hp),
      beq_iff_eq.mpr hjmac⟩
  · exact ⟨j, List.mem_append_right _ (mem_ListJobs_of_mem (by decide) hjmem hIP hip),
      beq_iff_eq.mpr hjmac⟩

theorem EvaluateRules_eq_nil (s : Store) (now : Nat)
    (h : ((ListRules s).filter (fun r => r.enabled)).isEmpty = true) :
    EvaluateRules s now = { store := s, jobsCreated := 0 } := by
  unfold EvaluateRules
  rw [if_pos h]

theorem EvaluateRules_eq_fold (s : Store) (now : Nat)
    (h : ((ListRules s).filter (fun r => r.enabled)).isEmpty = false) :
    EvaluateRules s now = (FilterEligibleModems (ListModems s 0)).foldl
      (evalFoldStep ((ListRules s).filter (fun r => r.enabled)) now)
      { store := s, jobsCreated := 0 } := by
  unfold EvaluateRules
  rw [if_neg (by rw [h]; exact Bool.false_ne_true)]

/-- Claim C4 (amended): rule evaluation is idempotent as long as the
job table fits the dedup query window — when the store after the first
run holds at most 1000 PENDING and at most 1000 IN_PROGRESS jobs, a
second run with no intervening state change creates zero new jobs.
(Beyond 1000 rows the `ListJobs(status, 1000)` window can miss a
modem's existing job; see the counterexample.) -/
theorem c4_amended_idempotent (s : Store) (now now2 : Nat)
    (hp : ((EvaluateRules s now).store.jobs.filter
        (fun x => x.status == JobStatusPending)).length ≤ 1000)
    (hip : ((EvaluateRules s now).store.jobs.filter
        (fun x => x.status == JobStatusInProgress)).length ≤ 1000) :
    (EvaluateRules (EvaluateRules s now).store now2).jobsCreated = 0 := by
  cases hre : ((ListRules s).filter (fun r => r.enabled)).isEmpty with
  | true =>
    rw [EvaluateRules_eq_nil s now hre]
    rw [show ({ store := s, jobsCreated := 0 } : EvalResult).store = s from rfl]
    rw [EvaluateRules_eq_nil s now2 hre]
  | false =>
    have h1 := EvaluateRules_eq_fold s now hre
    have hmod : (EvaluateRules s now).store.modems = s.modems := by
      rw [h1]
      exact evalFold_modems _ now _ _
    have hrul : (EvaluateRules s now).store.rules = s.rules := by
      rw [h1]
      exact evalFold_rules _ now _ _
    have hlr : ListRules (EvaluateRules s now).store = ListRules s := by
      unfold ListRules
      rw [hrul]
    have hlm : ListModems (EvaluateRules s now).store 0 = ListModems s 0 := by
      unfold ListModems
      rw [if_neg (by omega), if_neg (by omega), hmod]
    have hre2 : ((ListRules (EvaluateRules s now).store).filter
        (fun r => r.enabled)).isEmpty = false := by
      rw [hlr]; exact hre
    rw [EvaluateRules_eq_fold _ now2 hre2, hlr, hlm]
    rw [evalFold_const _ now2 _ _ ?hskip]
    case hskip =>
      intro m hm
      apply evalModemStep_eq_of_windowHit
      intro hready
      apply any_window_of_hasLive _ _ ?_ hp hip
      rw [h1]
      exact evalFold_establishes _ now _ _ m hm hready

theorem c4_amended_idempotent_witness :
    (EvaluateRules (EvaluateRules c4WitStore 5).store 6).jobsCreated = 0 :=
  c4_amended_idempotent c4WitStore 5 6 (by decide) (by decide)

/-! ### C4 counterexample: 1001 modems overflow the dedup window -/

theorem c4Mac_inj {i j : Nat} (h : c4Mac i = c4Mac j) : i = j := by
  have hd := congrArg String.data h
  have hl := congrArg List.length hd
  simp only [c4Mac, List.length_replicate] at hl
  omega

theorem c4_match (i : Nat) : MatchModemToRules (c4Modem i) [c4Rule] = some c4Rule := rfl

theorem c4_should (i : Nat) : ShouldUpgrade (c4Modem i) c4Rule = true := rfl

theorem c4_eligible (i : Nat) : eligibleModem (c4Modem i) = true := rfl

theorem c4Jobs_length (now : Nat) :
    ∀ (is : List Nat) (n : Nat), (c4Jobs n now is).length = is.length := by
  intro is
  induction is with
  | nil => intro n; rfl
  | cons i rest ih => intro n; simp [c4Jobs, ih]

theorem c4Jobs_append (now : Nat) :
    ∀ (as bs : List Nat) (n : Nat),
      c4Jobs n now (as ++ bs) = c4Jobs n now as ++ c4Jobs (n + as.length) now bs := by
  intro as
  induction as with
  | nil => intro bs n; simp [c4Jobs]
  | cons a rest ih =>
    intro bs n
    show c4Job n a now :: c4Jobs (n + 1) now (rest ++ bs) =
      c4Job n a now :: (c4Jobs (n + 1) now rest ++ c4Jobs (n + (rest.length + 1)) now bs)
    rw [ih bs (n + 1), show (n + 1) + rest.length = n + (rest.length + 1) by omega]

theorem c4Jobs_status (now : Nat) :
    ∀ (is : List Nat) (n : Nat), ∀ j ∈ c4Jobs n now is, j.status = JobStatusPending := by
  intro is
  induction is with
  | nil => intro n j hj; cases hj
  | cons i rest ih =>
    intro n j hj
    rcases List.mem_cons.mp hj with heq | htail
    · subst heq; rfl
    · exact ih (n + 1) j htail

theorem c4Jobs_createdAt (now : Nat) :
    ∀ (is : List Nat) (n : Nat), ∀ j ∈ c4Jobs n now is, j.createdAt = now := by
  intro is
  induction is with
  | nil => intro n j hj; cases hj
  | cons i rest ih =>
    intro n j hj
    rcases List.mem_cons.mp hj with heq | htail
    · subst heq; rfl
    · exact ih (n + 1) j htail

theorem c4Jobs_any_true (now : Nat) :
    ∀ (is : List Nat) (n i : Nat), i ∈ is →
      (c4Jobs n now is).any (fun j => j.macAddress == c4Mac i) = true := by
  intro is
  induction is with
  | nil => intro n i hi; cases hi
  | cons a rest ih =>
    intro n i hi
    rcases List.mem_cons.mp hi with heq | htail
    · subst heq
      simp [c4Jobs, c4Job]
    · simp only [c4Jobs, List.any_cons, Bool.or_eq_true]
      exact Or.inr (ih (n + 1) i htail)

theorem c4Jobs_any_false (now : Nat) :
    ∀ (is : List Nat) (n i : Nat), (∀ i2 ∈ is, i2 ≠ i) →
      (c4Jobs n now is).any (fun j => j.macAddress == c4Mac i) = false := by
  intro is
  induction is with
  | nil => intro n i _; rfl
  | cons a rest ih =>
    intro n i h
    simp only [c4Jobs, List.any_cons, Bool.or_eq_false_iff]
    constructor
    · show ((c4Job n a now).macAddress == c4Mac i) = false
      have hne : c4Mac a ≠ c4Mac i := fun he => h a (List.mem_cons_self a rest) (c4Mac_inj he)
      simpa [c4Job] using hne
    · exact ih (n + 1) i (fun i2 hi2 => h i2 (List.mem_cons_of_mem a hi2))

theorem c4_run1_fold :
    ∀ (is : List Nat) (s : Store) (k : Nat),
      is.Nodup →
      (∀ j ∈ s.jobs, ∀ i ∈ is, j.macAddress ≠ c4Mac i) →
      (is.map c4Modem).foldl (evalFoldStep [c4Rule] 5) { store := s, jobsCreated := k } =
        { store := { s with
            jobs := s.jobs ++ c4Jobs s.nextJobID 5 is
            nextJobID := s.nextJobID + is.length }
          jobsCreated := k + is.length } := by
  intro is
  induction is with
  | nil =>
    intro s k _ _
    simp [c4Jobs]
  | cons i rest ih =>
    intro s k hnd hmac
    rw [List.map_cons, List.foldl_cons]
    have hany : ((ListJobs s JobStatusPending 1000 ++
        ListJobs s JobStatusInProgress 1000).any
        (fun j => j.macAddress == (c4Modem i).macAddress)) = false := by
      rw [List.any_eq_false]
      intro j hj
      have hjs : j ∈ s.jobs := by
        rcases List.mem_append.mp hj with h1 | h1
        exacts [mem_of_mem_ListJobs h1, mem_of_mem_ListJobs h1]
      have hne := hmac j hjs i (List.mem_cons_self i rest)
      simpa using hne
    have hstep : evalModemStep [c4Rule] 5 s (c4Modem i) =
        ({ s with
            jobs := s.jobs ++ [c4Job s.nextJobID i 5]
            nextJobID := s.nextJobID + 1 }, true) := by
      unfold evalModemStep
      rw [c4_match i]
      dsimp only
      rw [if_neg (by rw [c4_should i]; simp)]
      rw [if_neg (by rw [hany]; simp)]
      rfl
    have hfold : evalFoldStep [c4Rule] 5 { store := s, jobsCreated := k } (c4Modem i) =
        { store := { s with
            jobs := s.jobs ++ [c4Job s.nextJobID i 5]
            nextJobID := s.nextJobID + 1 }
          jobsCreated := k + 1 } := by
      unfold evalFoldStep
      rw [show ({ store := s, jobsCreated := k } : EvalResult).store = s from rfl, hstep]
      rfl
    rw [hfold]
    rw [ih _ (k + 1) (List.nodup_cons.mp hnd).2 ?hm2]
    case hm2 =>
      intro j hj i2 hi2
      rcases List.mem_append.mp hj with hold | hnew
      · exact hmac j hold i2 (List.mem_cons_of_mem i hi2)
      · have hji : j = c4Job s.nextJobID i 5 := List.mem_singleton.mp hnew
        subst hji
        show c4Mac i ≠ c4Mac i2
        intro he
        exact (List.nodup_cons.mp hnd).1 (c4Mac_inj he ▸ hi2)
    have hj : (s.jobs ++ [c4Job s.nextJobID i 5]) ++ c4Jobs (s.nextJobID + 1) 5 rest =
        s.jobs ++ c4Jobs s.nextJobID 5 (i :: rest) := by
      rw [List.append_assoc]
      rfl
    simp only [List.length_cons]
    rw [hj, show s.nextJobID + 1 + rest.length = s.nextJobID + (rest.length + 1) by omega,
      show k + 1 + rest.length = k + (rest.length + 1) by omega]

theorem c4_modems_eligible (s : Store)
    (hm : s.modems = (List.range 1001).map c4Modem) :
    FilterEligibleModems (ListModems s 0) = (List.range 1001).map c4Modem := by
  have hlm : ListModems s 0 = (List.range 1001).map c4Modem := by
    unfold ListModems
    rw [if_neg (by omega), hm]
    apply sortByKeyDesc_eq_self _ 500
    intro a ha
    obtain ⟨i, -, rfl⟩ := List.mem_map.mp ha
    rfl
  rw [hlm]
  unfold FilterEligibleModems
  apply List.filter_eq_self.mpr
  intro m hmm
  obtain ⟨i, -, rfl⟩ := List.mem_map.mp hmm
  exact c4_eligible i

theorem c4_run1 :
    EvaluateRules c4Store0 5 = { store := c4Store1, jobsCreated := 0 + 1001 } := by
  rw [EvaluateRules_eq_fold c4Store0 5 rfl]
  rw [show (ListRules c4Store0).filter (fun r => r.enabled) = [c4Rule] from rfl]
  rw [c4_modems_eligible c4Store0 rfl]
  have h := c4_run1_fold (List.range 1001) c4Store0 0 (List.nodup_range 1001)
    (fun j hj => absurd hj (List.not_mem_nil j))
  rw [List.length_range] at h
  exact h

theorem c4_pending_window :
    ListJobs c4Store1 JobStatusPending 1000 = c4Jobs 1 5 (List.range 1000) := by
  have hfil : c4Store1.jobs.filter
      (fun j => j.status == JobStatusPending) = c4Jobs 1 5 (List.range 1001) := by
    apply List.filter_eq_self.mpr
    intro j hj
    exact beq_iff_eq.mpr (c4Jobs_status 5 _ 1 j hj)
  unfold ListJobs
  rw [if_pos (show (1000 : Nat) > 0 by omega),
    if_neg (show ¬(JobStatusPending = "") by decide)]
  rw [hfil]
  rw [sortByKeyDesc_eq_self _ 5 _ (fun a ha => c4Jobs_createdAt 5 _ 1 a ha)]
  rw [show List.range 1001 = List.range 1000 ++ [1000] from List.range_succ 1000]
  rw [c4Jobs_append 5 (List.range 1000) [1000] 1]
  have htake : ∀ (A B : List UpgradeJob), A.length = 1000 → (A ++ B).take 1000 = A := by
    intro A B h
    rw [← h]
    exact List.take_left _ _
  exact htake _ _ (by rw [c4Jobs_length]; exact List.length_range 1000)

theorem c4_inprogress_window :
    ListJobs c4Store1 JobStatusInProgress 1000 = [] := by
  have hfil : c4Store1.jobs.filter
      (fun j => j.status == JobStatusInProgress) = [] := by
    rw [List.filter_eq_nil_iff]
    intro j hj
    have hst := c4Jobs_status 5 _ 1 j hj
    simp [hst, JobStatusPending, JobStatusInProgress]
  unfold ListJobs
  rw [if_pos (show (1000 : Nat) > 0 by omega),
    if_neg (show ¬(JobStatusInProgress = "") by decide)]
  rw [hfil]
  rfl

theorem c4_run2 : (EvaluateRules c4Store1 6).jobsCreated = 1 := by
  rw [EvaluateRules_eq_fold c4Store1 6 rfl]
  rw [show (ListRules c4Store1).filter (fun r => r.enabled) = [c4Rule] from rfl]
  rw [c4_modems_eligible c4Store1 rfl]
  rw [show List.range 1001 = List.range 1000 ++ [1000] from List.range_succ 1000]
  rw [List.map_append, List.foldl_append]
  have hconst : ((List.range 1000).map c4Modem).foldl (evalFoldStep [c4Rule] 6)
      { store := c4Store1, jobsCreated := 0 } =
      { store := c4Store1, jobsCreated := 0 } := by
    apply evalFold_const
    intro m hm
    obtain ⟨i, hi, rfl⟩ := List.mem_map.mp hm
    apply evalModemStep_eq_of_windowHit
    intro _
    show ((ListJobs c4Store1 JobStatusPending 1000 ++
      ListJobs c4Store1 JobStatusInProgress 1000).any
      (fun j => j.macAddress == (c4Modem i).macAddress)) = true
    rw [c4_pending_window, c4_inprogress_window, List.append_nil]
    exact c4Jobs_any_true 5 (List.range 1000) 1 i hi
  rw [hconst]
  rw [List.map_cons, List.map_nil, List.foldl_cons, List.foldl_nil]
  have hany : ((ListJobs c4Store1 JobStatusPending 1000 ++
      ListJobs c4Store1 JobStatusInProgress 1000).any
      (fun j => j.macAddress == (c4Modem 1000).macAddress)) = false := by
    rw [c4_pending_window, c4_inprogress_window, List.append_nil]
    apply c4Jobs_any_false
    intro i2 hi2
    have := List.mem_range.mp hi2
    omega
  have hstep : evalModemStep [c4Rule] 6 c4Store1 (c4Modem 1000) =
      ({ c4Store1 with
          jobs := c4Store1.jobs ++ [c4Job c4Store1.nextJobID 1000 6]
          nextJobID := c4Store1.nextJobID + 1 }, true) := by
    unfold evalModemStep
    rw [c4_match 1000]
    dsimp only
    rw [if_neg (by rw [c4_should 1000]; simp)]
    rw [if_neg (by rw [hany]; simp)]
    rfl
  unfold evalFoldStep
  rw [show ({ store := c4Store1, jobsCreated := 0 } : EvalResult).store = c4Store1
    from rfl]
  rw [hstep]
  rfl

/-- Claim C4 counterexample: on a store of 1001 eligible modems all
matching one enabled rule, the first `EvaluateRules` run creates 1001
PENDING jobs, and a second run over the unchanged state creates one
MORE job: the per-modem dedup lists only the newest 1000 PENDING rows
(`ListJobs(PENDING, 1000)`, ordered by `created_at` descending with
ties in rowid order), so the oldest of the 1001 jobs falls outside the
window and its modem is not deduplicated. -/
theorem c4_counterexample :
    (EvaluateRules c4Store0 5).jobsCreated = 1001 ∧
    (EvaluateRules (EvaluateRules c4Store0 5).store 6).jobsCreated = 1 := by
  refine ⟨?_, ?_⟩
  · rw [c4_run1]
  · rw [c4_run1]
    exact c4_run2

end FirmwareUpgrader
